import Mathlib

/-!
Shallow embedding of the flock backend's asynchronous job pipeline, from
`backend/app/tasks.py` (duration parsing, time windows, offer filtering,
group statistics, the fan-out orchestrator and the destination aggregator)
and `backend/app/routes/jobs.py` (submission validation and job creation).

Modelling conventions:
* Python strings are `List Char`.
* Python `float` prices are exact rationals `ℚ` (provider prices arrive as
  decimal strings, which parse exactly).
* A Python exception escaping a function is `none` in an `Option`-valued
  function; `some` is normal return.
* Dictionary fields that the code may find absent (`KeyError`) are `Option`
  fields; `dict.get` with a default is `Option.getD`.
-/

namespace Flock

/-! ### Lexicographic string comparison

Python's `<=` on `str` is lexicographic on code points, with a proper
prefix comparing smaller. -/

/-- Python string `s <= t` (lexicographic, prefix-smaller). -/
def lexLe : List Char → List Char → Bool
  | [], _ => true
  | _ :: _, [] => false
  | a :: xs, b :: ys => if a < b then true else if a = b then lexLe xs ys else false

/-! ### Duration parsing

`_parse_duration_minutes` in `tasks.py`:

```python
def _parse_duration_minutes(duration: str) -> int:
    hours = int(re.search(r"(\d+)H", duration).group(1)) if "H" in duration else 0
    mins = int(re.search(r"(\d+)M", duration).group(1)) if "M" in duration else 0
    return hours * 60 + mins
```

`re.search(r"(\d+)X", s)` finds the leftmost position whose maximal digit
run is immediately followed by `X` and captures that run; if the letter is
present in the string but no such run exists, `.group(1)` raises
`AttributeError` on `None`.  `int` of the captured run is its decimal
value. -/

/-- Decimal value of a digit string (Python `int` on a digit run). -/
def digitsVal (l : List Char) : Nat :=
  l.foldl (fun a c => 10 * a + (c.toNat - '0'.toNat)) 0

/-- Attempt to match the regex `(\d+)c` at the head of `s`: the maximal
digit run at the head must be nonempty and be followed immediately by `c`. -/
def matchNumAt (c : Char) (s : List Char) : Option Nat :=
  let ds := s.takeWhile Char.isDigit
  if ds.isEmpty then none
  else
    match s.dropWhile Char.isDigit with
    | d :: _ => if d = c then some (digitsVal ds) else none
    | [] => none

/-- Model of `re.search(r"(\d+)c", s)`: leftmost match of a digit run followed by
`c`, returning the decimal value of the captured run. -/
def reSearchNum (c : Char) : List Char → Option Nat
  | [] => none
  | x :: rest =>
    match matchNumAt c (x :: rest) with
    | some n => some n
    | none => reSearchNum c rest

/-- Model of `_parse_duration_minutes`: `none` models the `AttributeError` raised
when the letter occurs but the regex finds no match. -/
def parse_duration_minutes (s : List Char) : Option Nat :=
  match (if 'H' ∈ s then reSearchNum 'H' s else some 0) with
  | none => none
  | some hours =>
    match (if 'M' ∈ s then reSearchNum 'M' s else some 0) with
    | none => none
    | some mins => some (hours * 60 + mins)

/-- Well-formedness of a duration token, written from the spec's words:
`PT<h>H<m>M` with either component optional, order fixed, `<h>` and `<m>`
nonempty digit runs.  This is a spec-side definition used only to state
claims about malformed tokens. -/
def wfMinutesPart (l : List Char) : Bool :=
  match l with
  | [] => true
  | _ => !(l.takeWhile Char.isDigit).isEmpty && l.dropWhile Char.isDigit == ['M']

/-- Spec-side well-formedness of a `PT<h>H<m>M` token (components optional). -/
def wellFormedDuration (s : List Char) : Bool :=
  match s with
  | 'P' :: 'T' :: rest =>
    match rest.dropWhile Char.isDigit with
    | 'H' :: r2 => !(rest.takeWhile Char.isDigit).isEmpty && wfMinutesPart r2
    | _ => wfMinutesPart rest
  | _ => false

/-! ### Time windows

`_in_time_window` in `tasks.py`:

```python
def _in_time_window(dt_str: str, window: dict | None) -> bool:
    if window is None:
        return True
    time_part = dt_str.split("T")[1][:5]
    return window["earliest"] <= time_part <= window["latest"]
```
-/

/-- A validated time window (`{"earliest": ..., "latest": ...}`). -/
structure TimeWindow where
  earliest : List Char
  latest : List Char
deriving DecidableEq

/-- Model of `dt_str.split("T")[1]`: the text between the first `'T'` and the second
`'T'` (or the end); `none` models the `IndexError` when no `'T'` occurs. -/
def afterFirstT : List Char → Option (List Char)
  | [] => none
  | c :: rest => if c = 'T' then some (rest.takeWhile (fun x => x ≠ 'T')) else afterFirstT rest

/-- Model of `dt_str.split("T")[1][:5]`: the `HH:MM` component of a timestamp. -/
def extractTimePart (dt : List Char) : Option (List Char) :=
  match afterFirstT dt with
  | none => none
  | some part => some (part.take 5)

/-- Model of `_in_time_window`. -/
def in_time_window (dt : List Char) (w : Option TimeWindow) : Option Bool :=
  match w with
  | none => some true
  | some win =>
    match extractTimePart dt with
    | none => none
    | some tp => some (lexLe win.earliest tp && lexLe tp win.latest)

/-! ### Offers and filters

The shapes of the provider's raw offers, as used by `_passes_filters` and
`_build_flight_option`.  A price `total` is a decimal string in the JSON;
it is modelled pre-parsed as an exact rational. -/

/-- One flight segment of an itinerary. -/
structure Segment where
  carrierCode : List Char
  number : List Char
  departureAt : List Char
  arrivalAt : List Char
deriving DecidableEq

/-- One itinerary (leg) of a round-trip offer. -/
structure Itinerary where
  duration : List Char
  segments : List Segment
deriving DecidableEq

/-- The `price` object of a raw offer. -/
structure Price where
  total : ℚ
  currency : List Char
deriving DecidableEq

/-- A raw offer from the provider. -/
structure Offer where
  itineraries : List Itinerary
  price : Price
deriving DecidableEq

/-- A traveler's filters dictionary.  The validator in `routes/jobs.py`
checks only `non_stop_only` and `excluded_airlines` for presence (and the
shape of any window supplied); `max_stops` is read unchecked by
`_passes_filters` via `filters["max_stops"]`, so it is an `Option`. -/
structure Filters where
  non_stop_only : Option Bool
  excluded_airlines : Option (List (List Char))
  max_stops : Option Int
  outbound_departure_window : Option TimeWindow
  outbound_arrival_window : Option TimeWindow
  return_departure_window : Option TimeWindow
  return_arrival_window : Option TimeWindow
deriving DecidableEq

/-- One window check inside `_passes_filters`: index the segment (Python
raises `IndexError` on an empty segment list before `_in_time_window` is
entered), run `_in_time_window`, and on `False` short-circuit the whole
filter to `False` without evaluating the remaining checks `k`. -/
def checkWindow (seg : Option Segment) (pick : Segment → List Char)
    (w : Option TimeWindow) (k : Option Bool) : Option Bool :=
  match seg with
  | none => none
  | some s =>
    match in_time_window (pick s) w with
    | none => none
    | some b => if b then k else some false

/-- Model of `_passes_filters`.  Mirrors the source's evaluation order: both
itineraries are read first, then the two stop-count checks against
`filters["max_stops"]` (a `KeyError` if absent), then the four window
checks in order, each indexing its segment eagerly. -/
def passes_filters (o : Offer) (f : Filters) : Option Bool :=
  match o.itineraries[0]?, o.itineraries[1]? with
  | some it0, some it1 =>
    (match f.max_stops with
     | none => none
     | some ms =>
       if (it0.segments.length : Int) - 1 > ms then some false
       else if (it1.segments.length : Int) - 1 > ms then some false
       else
         checkWindow it0.segments[0]? Segment.departureAt f.outbound_departure_window
           (checkWindow it0.segments.getLast? Segment.arrivalAt f.outbound_arrival_window
             (checkWindow it1.segments[0]? Segment.departureAt f.return_departure_window
               (checkWindow it1.segments.getLast? Segment.arrivalAt f.return_arrival_window
                 (some true)))))
  | _, _ => none

/-- Model of `[o for o in response.data if _passes_filters(o, filters)]`: the list
comprehension evaluates in order and an exception inside aborts the job. -/
def filterValid (f : Filters) : List Offer → Option (List Offer)
  | [] => some []
  | o :: os =>
    match passes_filters o f with
    | none => none
    | some b =>
      match filterValid f os with
      | none => none
      | some rest => some (if b then o :: rest else rest)

/-- Python `min(l, key=key)`: fold keeping the current element unless a
strictly smaller key appears, so the first minimum wins; `none` on `[]`. -/
def pyMinBy (key : α → ℚ) : List α → Option α
  | [] => none
  | x :: xs => some (xs.foldl (fun a b => if key b < key a then b else a) x)

/-- Spec-side notion for C5: window `w2` is contained in window `w1`, an
absent window counting as the full day.  Anything is contained in an
absent `w1`; a present `w1` contains exactly the present windows with
`w1.earliest ≤ w2.earliest` and `w2.latest ≤ w1.latest`. -/
def windowTightens : Option TimeWindow → Option TimeWindow → Bool
  | _, none => true
  | none, some _ => false
  | some v2, some v1 => lexLe v1.earliest v2.earliest && lexLe v2.latest v1.latest

/-- Spec-side notion for C5: `f2` tightens `f1` (smaller or equal
`max_stops`, both present, and every window of `f2` contained in the
corresponding window of `f1`). -/
def filtersTighten (f2 f1 : Filters) : Bool :=
  (match f1.max_stops, f2.max_stops with
   | some m1, some m2 => decide (m2 ≤ m1)
   | _, _ => false) &&
  windowTightens f2.outbound_departure_window f1.outbound_departure_window &&
  windowTightens f2.outbound_arrival_window f1.outbound_arrival_window &&
  windowTightens f2.return_departure_window f1.return_departure_window &&
  windowTightens f2.return_arrival_window f1.return_arrival_window

/-! ### Flight options and traveler flights (`_build_flight_option`) -/

/-- The dictionary built by `_build_flight_option`. -/
structure FlightOption where
  departure_time : List Char
  arrival_time : List Char
  duration_minutes : Nat
  stops : Nat
  airline : List Char
  flight_numbers : List (List Char)
  price : ℚ
deriving DecidableEq

/-- Model of `_build_flight_option`: indexes `segments[0]` and `segments[-1]` and
parses the itinerary duration, any of which can raise. -/
def build_flight_option (it : Itinerary) (price : ℚ) : Option FlightOption :=
  match it.segments[0]?, it.segments.getLast? with
  | some s0, some sl =>
    (match parse_duration_minutes it.duration with
     | none => none
     | some dur =>
       some { departure_time := s0.departureAt, arrival_time := sl.arrivalAt,
              duration_minutes := dur, stops := it.segments.length - 1,
              airline := s0.carrierCode,
              flight_numbers := it.segments.map (fun s => s.carrierCode ++ s.number),
              price := price })
  | _, _ => none

/-- The `traveler_flight` dictionary assembled in `run_flock_job`.
The source's `"return"` key is spelled `return_flight`. -/
structure TravelerFlight where
  traveler_name : List Char
  origin : List Char
  outbound : FlightOption
  return_flight : FlightOption
  total_price : ℚ
  currency : List Char
deriving DecidableEq

/-- Build the traveler-flight record from the chosen best offer: each leg
is priced at half the offer total. -/
def buildTravelerFlight (name origin : List Char) (best : Offer) : Option TravelerFlight :=
  match best.itineraries[0]?, best.itineraries[1]? with
  | some it0, some it1 =>
    (match build_flight_option it0 (best.price.total / 2),
           build_flight_option it1 (best.price.total / 2) with
     | some ob, some rb =>
       some { traveler_name := name, origin := origin, outbound := ob,
              return_flight := rb, total_price := best.price.total,
              currency := best.price.currency }
     | _, _ => none)
  | _, _ => none

/-- The per-(traveler, destination) body of the fan-out loop after a
successful provider response: filter the offers, and if any survive take
the first minimum-total-price one and build its traveler flight.  The
outer `Option` is a job-fatal exception; the inner `Option` is whether the
pair contributes a flight. -/
def processPair (offers : List Offer) (f : Filters) (name origin : List Char) :
    Option (Option TravelerFlight) :=
  match filterValid f offers with
  | none => none
  | some valid =>
    match pyMinBy (fun o => o.price.total) valid with
    | none => some none
    | some best =>
      match buildTravelerFlight name origin best with
      | none => none
      | some tf => some (some tf)

/-! ### Group statistics (`_compute_group_stats`)

Python's `sorted` is modelled by `List.insertionSort (· ≤ ·)` (any stable
comparison sort of rationals yields the same list), `statistics.median` by
the sort-and-take-middle algorithm of the standard library, `min`/`max` by
first-extremum folds, and `sum` by a left fold from `0`. -/

/-- Python `sum(l)`. -/
def pySum (l : List ℚ) : ℚ := l.foldl (· + ·) 0

/-- Python `min(l)` on numbers (`none` models the `ValueError` on `[]`). -/
def pyMin (l : List ℚ) : Option ℚ := pyMinBy id l

/-- Python `max(l)` on numbers. -/
def pyMax : List ℚ → Option ℚ
  | [] => none
  | x :: xs => some (xs.foldl (fun a b => if b > a then b else a) x)

/-- Model of `statistics.median`: sort, then the middle element (odd length) or the
mean of the two middle elements (even length); error on `[]`. -/
def pyMedian (l : List ℚ) : Option ℚ :=
  match l with
  | [] => none
  | _ :: _ =>
    let s := List.insertionSort (· ≤ ·) l
    if l.length % 2 = 1 then s[l.length / 2]?
    else
      match s[l.length / 2 - 1]?, s[l.length / 2]? with
      | some a, some b => some ((a + b) / 2)
      | _, _ => none

/-- The dictionary built by `_compute_group_stats`. -/
structure GroupStats where
  currency : List Char
  individual_totals : List ℚ
  total : ℚ
  average : ℚ
  median : ℚ
  cheapest : ℚ
  most_expensive : ℚ
deriving DecidableEq

/-- Model of `_compute_group_stats`: a `ZeroDivisionError` (average) or
`StatisticsError`/`ValueError` (median/min/max) on an empty list is `none`. -/
def compute_group_stats (l : List ℚ) (c : List Char) : Option GroupStats :=
  if l.length = 0 then none
  else
    match pyMedian l, pyMin l, pyMax l with
    | some med, some mn, some mx =>
      some { currency := c, individual_totals := l, total := pySum l,
             average := pySum l / (l.length : ℚ), median := med,
             cheapest := mn, most_expensive := mx }
    | _, _, _ => none

/-! ### Submissions and validation (`routes/jobs.py`)

Fields whose absence the code can observe (`KeyError`, or a presence check
in the validator) are `Option`s. -/

/-- One traveler of a submission. -/
structure Traveler where
  name : Option (List Char)
  origin_airport : Option (List Char)
  filters : Option Filters
deriving DecidableEq

/-- A submission payload. -/
structure Submission where
  travelers : Option (List Traveler)
  destinations : Option (List (List Char))
  outbound_date : Option (List Char)
  return_date : Option (List Char)
  default_filters : Option Filters
deriving DecidableEq

/-- Model of `_validate_filters`: requires a boolean `non_stop_only` and a
list-typed `excluded_airlines`; any window supplied must carry both
`earliest` and `latest`, which every typed `TimeWindow` does, so that
check is vacuous in this embedding.  `max_stops` is never examined. -/
def validate_filters (f : Filters) : Bool :=
  f.non_stop_only.isSome && f.excluded_airlines.isSome

/-- The per-traveler checks of `_validate_submission`. -/
def validateTraveler (t : Traveler) : Bool :=
  t.name.isSome && t.origin_airport.isSome &&
    (match t.filters with
     | some f => validate_filters f
     | none => false)

/-- Model of `_validate_submission` as a predicate: `true` means the request is
accepted (no `ValueError` raised). -/
def validate_submission (s : Submission) : Bool :=
  s.outbound_date.isSome && s.return_date.isSome &&
    (match s.travelers with
     | some ts => !ts.isEmpty && ts.all validateTraveler
     | none => false) &&
    (match s.destinations with
     | some ds => !ds.isEmpty
     | none => false) &&
    (match s.default_filters with
     | some f => validate_filters f
     | none => false)

/-! ### The fan-out orchestrator and destination aggregator
(`run_flock_job`) -/

/-- Model of `results_by_dest.setdefault(destination, []).append(traveler_flight)`:
append to the destination's list, keeping dict insertion order. -/
def insertAppend (d : List Char) (tf : TravelerFlight) :
    List (List Char × List TravelerFlight) → List (List Char × List TravelerFlight)
  | [] => [(d, [tf])]
  | (d', tfs) :: rest =>
    if d' = d then (d', tfs ++ [tf]) :: rest else (d', tfs) :: insertAppend d tf rest

/-- The provider: `amadeus.shopping.flight_offers_search.get` as a function
of the call arguments that vary per pair (origin, destination, non-stop
flag, excluded airlines).  `none` is a `ResponseError`. -/
abbrev Provider := List Char → List Char → Bool → List (List Char) → Option (List Offer)

/-- The inner (destination) loop of the fan-out for one traveler.  Building
`call_kwargs` reads `filters["non_stop_only"]` (a `KeyError` if absent); a
`ResponseError` from the provider is caught and the pair skipped; any other
exception aborts the job. -/
def fanOutDests (provider : Provider) (f : Filters) (name origin : List Char) :
    List (List Char) → List (List Char × List TravelerFlight) →
    Option (List (List Char × List TravelerFlight))
  | [], acc => some acc
  | dest :: rest, acc =>
    match f.non_stop_only with
    | none => none
    | some ns =>
      match provider origin dest ns (f.excluded_airlines.getD []) with
      | none => fanOutDests provider f name origin rest acc
      | some offers =>
        match processPair offers f name origin with
        | none => none
        | some none => fanOutDests provider f name origin rest acc
        | some (some tf) => fanOutDests provider f name origin rest (insertAppend dest tf acc)

/-- The outer (traveler) loop of the fan-out: reads `name`,
`origin_airport` and `filters` from each traveler dict. -/
def fanOutTravelers (provider : Provider) :
    List Traveler → List (List Char) → List (List Char × List TravelerFlight) →
    Option (List (List Char × List TravelerFlight))
  | [], _, acc => some acc
  | t :: ts, dests, acc =>
    match t.name, t.origin_airport, t.filters with
    | some name, some origin, some f =>
      (match fanOutDests provider f name origin dests acc with
       | none => none
       | some acc' => fanOutTravelers provider ts dests acc')
    | _, _, _ => none

/-- The whole fan-out: `results_by_dest` starts empty. -/
def fanOut (provider : Provider) (travelers : List Traveler) (dests : List (List Char)) :
    Option (List (List Char × List TravelerFlight)) :=
  fanOutTravelers provider travelers dests []

/-- One entry of the final `destination_results` list. -/
structure DestinationResult where
  destination : List Char
  destination_name : List Char
  traveler_flights : List TravelerFlight
  group_stats : GroupStats
deriving DecidableEq

/-- The aggregation loop of `run_flock_job`: keep a destination only when
`len(traveler_flights) == len(travelers)`, read the nominal currency from
`traveler_flights[0]`, and compute the group stats.  `resolve` is the
destination-name map built by `_get_destination_name`, which always
returns a name (it falls back to the IATA code on any failure). -/
def aggregateResults (n : Nat) (resolve : List Char → List Char) :
    List (List Char × List TravelerFlight) → Option (List DestinationResult)
  | [] => some []
  | (dest, tfs) :: rest =>
    if tfs.length ≠ n then aggregateResults n resolve rest
    else
      match tfs[0]? with
      | none => none
      | some tf0 =>
        match compute_group_stats (tfs.map (fun tf => tf.total_price)) tf0.currency with
        | none => none
        | some stats =>
          match aggregateResults n resolve rest with
          | none => none
          | some others =>
            some ({ destination := dest, destination_name := resolve dest,
                    traveler_flights := tfs, group_stats := stats } :: others)

/-- The computational core of `run_flock_job` for an already-stored
submission: read the submission's fields, fan out, aggregate.  `none` means
the job ends `failed`; `some` carries the `destinations` payload of the
complete result. -/
def run_flock_job (provider : Provider) (resolve : List Char → List Char)
    (s : Submission) : Option (List DestinationResult) :=
  match s.travelers, s.destinations, s.outbound_date, s.return_date with
  | some travelers, some dests, some _, some _ =>
    (match fanOut provider travelers dests with
     | none => none
     | some m => aggregateResults travelers.length resolve m)
  | _, _, _, _ => none

/-! ### Job lifecycle (`create_job` and the worker wrapper) -/

/-- The `jobs.status` column values. -/
inductive JobStatus
  | pending
  | running
  | complete
  | failed
deriving DecidableEq

/-- The sequence of status values the worker writes for an existing job:
`running` first, then `complete` on success or `failed` on any exception. -/
def workerStatusWrites (provider : Provider) (resolve : List Char → List Char)
    (s : Submission) : List JobStatus :=
  JobStatus.running ::
    (match run_flock_job provider resolve s with
     | some _ => [JobStatus.complete]
     | none => [JobStatus.failed])

/-- The full status history of an accepted submission's job row:
`create_job` inserts it as `pending`, then the worker's writes follow. -/
def statusHistory (provider : Provider) (resolve : List Char → List Char)
    (s : Submission) : List JobStatus :=
  JobStatus.pending :: workerStatusWrites provider resolve s

/-! ### Concrete example data (used by witnesses) -/

/-- A one-segment outbound itinerary departing 10:40. -/
def segOutEx : Segment :=
  ⟨"AA".toList, "100".toList, "2024-11-01T10:40:00".toList, "2024-11-01T12:10:00".toList⟩

/-- A one-segment return itinerary departing 14:00. -/
def segRetEx : Segment :=
  ⟨"AA".toList, "200".toList, "2024-11-05T14:00:00".toList, "2024-11-05T16:00:00".toList⟩

/-- A well-formed non-stop round-trip offer priced 100. -/
def offerEx : Offer :=
  ⟨[⟨"PT1H30M".toList, [segOutEx]⟩, ⟨"PT2H".toList, [segRetEx]⟩], ⟨100, "USD".toList⟩⟩

/-- A second well-formed offer, priced 80. -/
def offerEx2 : Offer :=
  ⟨[⟨"PT1H30M".toList, [segOutEx]⟩, ⟨"PT2H".toList, [segRetEx]⟩], ⟨80, "USD".toList⟩⟩

/-- A loose set of filters: at most one stop, one wide outbound window. -/
def f1Ex : Filters :=
  ⟨some false, some [], some 1, some ⟨"06:00".toList, "22:00".toList⟩, none, none, none⟩

/-- A tighter set of filters: non-stop only, narrower outbound window. -/
def f2Ex : Filters :=
  ⟨some false, some [], some 0, some ⟨"08:00".toList, "12:00".toList⟩, none, none, none⟩

/-- A concrete traveler using the loose filters. -/
def travEx : Traveler := ⟨some "alice".toList, some "JFK".toList, some f1Ex⟩

/-- A concrete valid submission: one traveler, two destinations. -/
def subEx : Submission :=
  ⟨some [travEx], some ["CDG".toList, "LHR".toList], some "2024-11-01".toList,
    some "2024-11-05".toList, some f1Ex⟩

/-- A provider that errors on the CDG pair and returns one good offer
elsewhere. -/
def provEx : Provider :=
  fun _o d _ns _ex => if d = "CDG".toList then none else some [offerEx]

/-- Filters whose `max_stops` key is missing; the validator never looks at
it. -/
def fNoMS : Filters := ⟨some false, some [], none, none, none, none, none⟩

/-- A traveler whose filters lack `max_stops`. -/
def travC10 : Traveler := ⟨some "bob".toList, some "SFO".toList, some fNoMS⟩

/-- A submission that passes validation although its traveler's filters
lack `max_stops`. -/
def subC10 : Submission :=
  ⟨some [travC10], some ["CDG".toList], some "2024-11-01".toList,
    some "2024-11-05".toList, some fNoMS⟩

/-- A provider that always returns one offer. -/
def provC10 : Provider := fun _ _ _ _ => some [offerEx]

/-- A concrete traveler flight totalling 100. -/
def tfEx : TravelerFlight :=
  ⟨"alice".toList, "JFK".toList,
    ⟨"2024-11-01T10:40:00".toList, "2024-11-01T12:10:00".toList, 90, 0, "AA".toList,
      ["AA100".toList], 50⟩,
    ⟨"2024-11-05T14:00:00".toList, "2024-11-05T16:00:00".toList, 120, 0, "AA".toList,
      ["AA200".toList], 50⟩,
    100, "USD".toList⟩

/-! ## Helper lemmas -/

/-! ### Lexicographic order -/

theorem lexLe_cons_iff {a b : Char} {xs ys : List Char} :
    lexLe (a :: xs) (b :: ys) = true ↔ a < b ∨ (a = b ∧ lexLe xs ys = true) := by
  simp only [lexLe]
  split_ifs with h₁ h₂
  · simp [h₁]
  · simp [h₂, not_lt_of_lt, h₁]
  · simp [h₁, h₂]

theorem lexLe_refl (s : List Char) : lexLe s s = true := by
  induction s with
  | nil => rfl
  | cons a xs ih => exact lexLe_cons_iff.mpr (Or.inr ⟨rfl, ih⟩)

theorem lexLe_trans {s t u : List Char} (h₁ : lexLe s t = true) (h₂ : lexLe t u = true) :
    lexLe s u = true := by
  induction s generalizing t u with
  | nil => rfl
  | cons a xs ih =>
    cases t with
    | nil => simp [lexLe] at h₁
    | cons b ys =>
      cases u with
      | nil => simp [lexLe] at h₂
      | cons c zs =>
        rcases lexLe_cons_iff.mp h₁ with hab | ⟨hab, hxs⟩
        · rcases lexLe_cons_iff.mp h₂ with hbc | ⟨hbc, _⟩
          · exact lexLe_cons_iff.mpr (Or.inl (lt_trans hab hbc))
          · exact lexLe_cons_iff.mpr (Or.inl (hbc ▸ hab))
        · rcases lexLe_cons_iff.mp h₂ with hbc | ⟨hbc, hys⟩
          · exact lexLe_cons_iff.mpr (Or.inl (hab ▸ hbc))
          · exact lexLe_cons_iff.mpr (Or.inr ⟨hab.trans hbc, ih hxs hys⟩)

/-! ### Regex search lemmas for the duration parser -/

theorem digit_ne_letter {x : Char} (h : x.isDigit = true) :
    x ≠ 'H' ∧ x ≠ 'M' ∧ x ≠ 'P' ∧ x ≠ 'T' := by
  refine ⟨?_, ?_, ?_, ?_⟩ <;> rintro rfl <;> exact absurd h (by decide)

theorem takeWhile_digits_append {hd : List Char} (h : hd.all Char.isDigit = true)
    {b : Char} (hb : b.isDigit = false) (rest : List Char) :
    (hd ++ b :: rest).takeWhile Char.isDigit = hd ∧
      (hd ++ b :: rest).dropWhile Char.isDigit = b :: rest := by
  induction hd with
  | nil => simp [List.takeWhile_cons, List.dropWhile_cons, hb]
  | cons x xs ih =>
    simp only [List.all_cons, Bool.and_eq_true] at h
    have := ih h.2
    simp [List.takeWhile_cons, List.dropWhile_cons, h.1, this.1, this.2]

theorem matchNumAt_run {hd : List Char} (hne : hd ≠ []) (h : hd.all Char.isDigit = true)
    {c : Char} (hc : c.isDigit = false) (rest : List Char) :
    matchNumAt c (hd ++ c :: rest) = some (digitsVal hd) := by
  have htd := takeWhile_digits_append h hc rest
  have hde : hd.isEmpty = false := by
    cases hd with
    | nil => exact absurd rfl hne
    | cons x xs => rfl
  simp [matchNumAt, htd.1, htd.2, hde]

theorem matchNumAt_wrong_letter {hd : List Char} (h : hd.all Char.isDigit = true)
    {b c : Char} (hb : b.isDigit = false) (hbc : b ≠ c) (rest : List Char) :
    matchNumAt c (hd ++ b :: rest) = none := by
  have htd := takeWhile_digits_append h hb rest
  cases hd with
  | nil =>
    simp only [List.nil_append] at htd ⊢
    simp [matchNumAt, htd.1]
  | cons x xs =>
    simp only [matchNumAt, htd.1, htd.2]
    simp [hbc]

theorem reSearchNum_skip {b c : Char} (hb : b.isDigit = false) (hbc : b ≠ c)
    {hd : List Char} (h : hd.all Char.isDigit = true) (rest : List Char) :
    reSearchNum c (hd ++ b :: rest) = reSearchNum c rest := by
  induction hd with
  | nil =>
    have := @matchNumAt_wrong_letter [] rfl b c hb hbc rest
    simp only [List.nil_append] at this ⊢
    simp [reSearchNum, this]
  | cons x xs ih =>
    simp only [List.all_cons, Bool.and_eq_true] at h
    have hm := @matchNumAt_wrong_letter (x :: xs) (by simp [h.1, h.2]) b c hb hbc rest
    simp only [List.cons_append] at hm ⊢
    simp [reSearchNum, hm, ih h.2]

theorem reSearchNum_cons_skip {c x : Char} (hx : x.isDigit = false) (hxc : x ≠ c)
    (s : List Char) : reSearchNum c (x :: s) = reSearchNum c s := by
  have := @reSearchNum_skip x c hx hxc [] rfl s
  simpa using this

theorem reSearchNum_found {c : Char} (hc : c.isDigit = false) {hd : List Char} (hne : hd ≠ [])
    (h : hd.all Char.isDigit = true) (rest : List Char) :
    reSearchNum c (hd ++ c :: rest) = some (digitsVal hd) := by
  have hm := matchNumAt_run hne h hc rest
  cases hd with
  | nil => exact absurd rfl hne
  | cons x xs =>
    simp only [List.cons_append] at hm ⊢
    simp [reSearchNum, hm]

theorem not_mem_digits {c : Char} (hc : c.isDigit = false) {hd : List Char}
    (h : hd.all Char.isDigit = true) : c ∉ hd := by
  intro hmem
  rw [List.all_eq_true] at h
  exact absurd (h c hmem) (by simp [hc])

/-! ### Offer filter lemmas -/

theorem checkWindow_eq_some_true_iff {seg : Option Segment} {pick : Segment → List Char}
    {w : Option TimeWindow} {k : Option Bool} :
    checkWindow seg pick w k = some true ↔
      ∃ s, seg = some s ∧ in_time_window (pick s) w = some true ∧ k = some true := by
  cases seg with
  | none => simp [checkWindow]
  | some s =>
    simp only [checkWindow]
    cases hw : in_time_window (pick s) w with
    | none => simp [hw]
    | some b => cases b <;> simp [hw]

theorem passes_filters_eq_some_true_iff {o : Offer} {f : Filters} :
    passes_filters o f = some true ↔
      ∃ it0 it1 ms, o.itineraries[0]? = some it0 ∧ o.itineraries[1]? = some it1 ∧
        f.max_stops = some ms ∧
        (it0.segments.length : Int) - 1 ≤ ms ∧ (it1.segments.length : Int) - 1 ≤ ms ∧
        ∃ os0 osl rs0 rsl,
          it0.segments[0]? = some os0 ∧ it0.segments.getLast? = some osl ∧
          it1.segments[0]? = some rs0 ∧ it1.segments.getLast? = some rsl ∧
          in_time_window os0.departureAt f.outbound_departure_window = some true ∧
          in_time_window osl.arrivalAt f.outbound_arrival_window = some true ∧
          in_time_window rs0.departureAt f.return_departure_window = some true ∧
          in_time_window rsl.arrivalAt f.return_arrival_window = some true := by
  unfold passes_filters
  cases h0 : o.itineraries[0]? with
  | none => simp
  | some it0 =>
    cases h1 : o.itineraries[1]? with
    | none => simp
    | some it1 =>
      cases hms : f.max_stops with
      | none => simp
      | some ms =>
        simp only [Option.some_inj]
        split_ifs with hs0 hs1
        · constructor
          · intro h; cases h
          · rintro ⟨it0', it1', ms', rfl, e1, rfl, hle0, hle1, _⟩
            omega
        · constructor
          · intro h; cases h
          · rintro ⟨it0', it1', ms', e0, rfl, rfl, hle0, hle1, _⟩
            omega
        · rw [checkWindow_eq_some_true_iff]
          constructor
          · rintro ⟨os0, hos0, hw1, rest⟩
            rw [checkWindow_eq_some_true_iff] at rest
            obtain ⟨osl, hosl, hw2, rest⟩ := rest
            rw [checkWindow_eq_some_true_iff] at rest
            obtain ⟨rs0, hrs0, hw3, rest⟩ := rest
            rw [checkWindow_eq_some_true_iff] at rest
            obtain ⟨rsl, hrsl, hw4, _⟩ := rest
            exact ⟨it0, it1, ms, rfl, rfl, rfl, by omega, by omega,
              os0, osl, rs0, rsl, hos0, hosl, hrs0, hrsl, hw1, hw2, hw3, hw4⟩
          · rintro ⟨it0', it1', ms', rfl, rfl, rfl, _, _,
              os0, osl, rs0, rsl, hos0, hosl, hrs0, hrsl, hw1, hw2, hw3, hw4⟩
            exact ⟨os0, hos0, hw1, checkWindow_eq_some_true_iff.mpr
              ⟨osl, hosl, hw2, checkWindow_eq_some_true_iff.mpr
                ⟨rs0, hrs0, hw3, checkWindow_eq_some_true_iff.mpr
                  ⟨rsl, hrsl, hw4, rfl⟩⟩⟩⟩

theorem in_time_window_tighten {t : List Char} {w1 w2 : Option TimeWindow}
    (hw : windowTightens w2 w1 = true) (h : in_time_window t w2 = some true) :
    in_time_window t w1 = some true := by
  cases w1 with
  | none => rfl
  | some v1 =>
    cases w2 with
    | none => simp [windowTightens] at hw
    | some v2 =>
      simp only [windowTightens, Bool.and_eq_true] at hw
      simp only [in_time_window] at h ⊢
      cases htp : extractTimePart t with
      | none => rw [htp] at h; cases h
      | some tp =>
        rw [htp] at h
        simp only [Option.some_inj, Bool.and_eq_true] at h ⊢
        exact ⟨lexLe_trans hw.1 h.1, lexLe_trans h.2 hw.2⟩

theorem passes_filters_tighten {o : Offer} {f1 f2 : Filters}
    (ht : filtersTighten f2 f1 = true) (hp : passes_filters o f2 = some true) :
    passes_filters o f1 = some true := by
  simp only [filtersTighten, Bool.and_eq_true] at ht
  obtain ⟨⟨⟨⟨hms, hw1⟩, hw2⟩, hw3⟩, hw4⟩ := ht
  rw [passes_filters_eq_some_true_iff] at hp
  obtain ⟨it0, it1, ms2, e0, e1, ems2, hle0, hle1,
    os0, osl, rs0, rsl, hos0, hosl, hrs0, hrsl, hin1, hin2, hin3, hin4⟩ := hp
  obtain ⟨m1, hm1, hm2le⟩ : ∃ m1, f1.max_stops = some m1 ∧ ms2 ≤ m1 := by
    cases hf1 : f1.max_stops with
    | none => rw [hf1] at hms; cases hms
    | some m1 =>
      cases hf2 : f2.max_stops with
      | none => rw [hf1, hf2] at hms; cases hms
      | some m2 =>
        rw [hf1, hf2] at hms
        rw [hf2] at ems2
        obtain rfl : m2 = ms2 := by injection ems2
        exact ⟨m1, rfl, of_decide_eq_true hms⟩
  rw [passes_filters_eq_some_true_iff]
  exact ⟨it0, it1, m1, e0, e1, hm1, le_trans hle0 (by exact_mod_cast hm2le),
    le_trans hle1 (by exact_mod_cast hm2le),
    os0, osl, rs0, rsl, hos0, hosl, hrs0, hrsl,
    in_time_window_tighten hw1 hin1, in_time_window_tighten hw2 hin2,
    in_time_window_tighten hw3 hin3, in_time_window_tighten hw4 hin4⟩

theorem filterValid_eq_filter {f : Filters} {offers valid : List Offer}
    (h : filterValid f offers = some valid) :
    valid = offers.filter (fun o => passes_filters o f == some true) := by
  induction offers generalizing valid with
  | nil =>
    simp only [filterValid, Option.some_inj] at h
    simp [h.symm]
  | cons o os ih =>
    simp only [filterValid] at h
    cases hb : passes_filters o f with
    | none => rw [hb] at h; cases h
    | some b =>
      rw [hb] at h
      cases hr : filterValid f os with
      | none => rw [hr] at h; cases h
      | some rest =>
        rw [hr] at h
        injection h with h
        subst h
        rw [List.filter_cons]
        cases b <;> simp [hb, ih hr]

/-! ### First-minimum lemmas for Python `min` -/

theorem pyFold_min_le {α : Type} (key : α → ℚ) (xs : List α) (x : α) :
    key (xs.foldl (fun a b => if key b < key a then b else a) x) ≤ key x ∧
      ∀ a ∈ xs, key (xs.foldl (fun a b => if key b < key a then b else a) x) ≤ key a := by
  induction xs generalizing x with
  | nil => exact ⟨le_refl _, by simp⟩
  | cons y ys ih =>
    simp only [List.foldl_cons]
    constructor
    · by_cases h : key y < key x
      · rw [if_pos h]; exact le_trans (ih y).1 (le_of_lt h)
      · rw [if_neg h]; exact (ih x).1
    · intro a ha
      rcases List.mem_cons.mp ha with rfl | ha
      · by_cases h : key a < key x
        · rw [if_pos h]; exact (ih a).1
        · rw [if_neg h]; exact le_trans (ih x).1 (le_of_not_lt h)
      · by_cases h : key y < key x
        · rw [if_pos h]; exact (ih y).2 a ha
        · rw [if_neg h]; exact (ih x).2 a ha

theorem pyFold_decomp {α : Type} (key : α → ℚ) (xs : List α) (x : α) :
    ∃ l1 l2,
      x :: xs = l1 ++ (xs.foldl (fun a b => if key b < key a then b else a) x) :: l2
      ∧ (∀ a ∈ l1, key (xs.foldl (fun a b => if key b < key a then b else a) x) < key a)
      ∧ (∀ a ∈ l2, key (xs.foldl (fun a b => if key b < key a then b else a) x) ≤ key a) := by
  induction xs generalizing x with
  | nil => exact ⟨[], [], rfl, by simp, by simp⟩
  | cons y ys ih =>
    simp only [List.foldl_cons]
    by_cases hxy : key y < key x
    · rw [if_pos hxy]
      obtain ⟨l1, l2, hdec, hlt, hle⟩ := ih y
      refine ⟨x :: l1, l2, ?_, ?_, hle⟩
      · rw [List.cons_append, ← hdec]
      · intro a ha
        rcases List.mem_cons.mp ha with rfl | ha
        · exact lt_of_le_of_lt (pyFold_min_le key ys y).1 hxy
        · exact hlt a ha
    · rw [if_neg hxy]
      obtain ⟨l1, l2, hdec, hlt, hle⟩ := ih x
      cases l1 with
      | nil =>
        simp only [List.nil_append, List.cons.injEq] at hdec
        refine ⟨[], y :: ys, ?_, by simp, ?_⟩
        · rw [List.nil_append, ← hdec.1]
        · intro a ha
          rcases List.mem_cons.mp ha with rfl | ha
          · rw [← hdec.1]; exact le_of_not_lt hxy
          · exact hle a (hdec.2 ▸ ha)
      | cons z l1' =>
        simp only [List.cons_append, List.cons.injEq] at hdec
        refine ⟨x :: y :: l1', l2, ?_, ?_, hle⟩
        · simp only [List.cons_append]
          exact congrArg (fun t => x :: y :: t) hdec.2
        · intro a ha
          have hmx : key (ys.foldl (fun a b => if key b < key a then b else a) x) < key x := by
            have := hlt z (List.mem_cons_self z l1')
            rwa [← hdec.1] at this
          rcases List.mem_cons.mp ha with rfl | ha
          · exact hmx
          rcases List.mem_cons.mp ha with rfl | ha
          · exact lt_of_lt_of_le hmx (le_of_not_lt hxy)
          · exact hlt a (List.mem_cons_of_mem z ha)

theorem pyMinBy_spec {α : Type} {key : α → ℚ} {l : List α} {m : α}
    (h : pyMinBy key l = some m) :
    ∃ l1 l2, l = l1 ++ m :: l2 ∧ (∀ a ∈ l1, key m < key a) ∧ (∀ a ∈ l2, key m ≤ key a) := by
  cases l with
  | nil => cases h
  | cons x xs =>
    simp only [pyMinBy, Option.some_inj] at h
    subst h
    exact pyFold_decomp key xs x

/-! ### Statistics lemmas -/

theorem pySum_eq_sum (l : List ℚ) : pySum l = l.sum := by
  simp [pySum, List.sum_eq_foldl]

theorem pyMin_spec {l : List ℚ} {m : ℚ} (h : pyMin l = some m) :
    m ∈ l ∧ ∀ x ∈ l, m ≤ x := by
  obtain ⟨l1, l2, hdec, hlt, hle⟩ := @pyMinBy_spec ℚ id l m h
  subst hdec
  constructor
  · exact List.mem_append.mpr (Or.inr (List.mem_cons_self _ _))
  · intro x hx
    rcases List.mem_append.mp hx with hx | hx
    · exact le_of_lt (hlt x hx)
    · rcases List.mem_cons.mp hx with rfl | hx
      · exact le_refl _
      · exact hle x hx

theorem pyFold_max (xs : List ℚ) (x : ℚ) :
    (xs.foldl (fun a b => if b > a then b else a) x ∈ x :: xs) ∧
      x ≤ xs.foldl (fun a b => if b > a then b else a) x ∧
      ∀ a ∈ xs, a ≤ xs.foldl (fun a b => if b > a then b else a) x := by
  induction xs generalizing x with
  | nil => exact ⟨List.mem_cons_self _ _, le_refl _, by simp⟩
  | cons y ys ih =>
    simp only [List.foldl_cons]
    by_cases h : y > x
    · rw [if_pos h]
      obtain ⟨hmem, hxle, hall⟩ := ih y
      refine ⟨List.mem_cons_of_mem x hmem, le_trans (le_of_lt h) hxle, ?_⟩
      intro a ha
      rcases List.mem_cons.mp ha with rfl | ha
      · exact hxle
      · exact hall a ha
    · rw [if_neg h]
      obtain ⟨hmem, hxle, hall⟩ := ih x
      refine ⟨?_, hxle, ?_⟩
      · rcases List.mem_cons.mp hmem with he | hm
        · rw [he]; exact List.mem_cons_self _ _
        · exact List.mem_cons_of_mem x (List.mem_cons_of_mem y hm)
      · intro a ha
        rcases List.mem_cons.mp ha with rfl | ha
        · exact le_trans (le_of_not_lt h) hxle
        · exact hall a ha

theorem pyMax_spec {l : List ℚ} {m : ℚ} (h : pyMax l = some m) :
    m ∈ l ∧ ∀ x ∈ l, x ≤ m := by
  cases l with
  | nil => cases h
  | cons x xs =>
    simp only [pyMax, Option.some_inj] at h
    subst h
    obtain ⟨hmem, hxle, hall⟩ := pyFold_max xs x
    refine ⟨hmem, ?_⟩
    intro a ha
    rcases List.mem_cons.mp ha with rfl | ha
    · exact hxle
    · exact hall a ha

theorem pyMedian_spec {l : List ℚ} (hne : l ≠ []) :
    ∃ med, pyMedian l = some med ∧
      ∃ s, l.Perm s ∧ s.Sorted (· ≤ ·) ∧
        med = (if l.length % 2 = 1 then s.getD (l.length / 2) 0
               else (s.getD (l.length / 2 - 1) 0 + s.getD (l.length / 2) 0) / 2) := by
  obtain ⟨x, xs, rfl⟩ := List.exists_cons_of_ne_nil hne
  have hperm : (x :: xs).Perm (List.insertionSort (· ≤ ·) (x :: xs)) :=
    (List.perm_insertionSort _ _).symm
  have hsort : (List.insertionSort (· ≤ ·) (x :: xs)).Sorted (· ≤ ·) :=
    List.sorted_insertionSort _ _
  have hlen : (List.insertionSort (· ≤ ·) (x :: xs)).length = (x :: xs).length :=
    hperm.length_eq.symm
  have hpos : 0 < (x :: xs).length := by simp
  by_cases hodd : (x :: xs).length % 2 = 1
  · have hidx : (x :: xs).length / 2 < (List.insertionSort (· ≤ ·) (x :: xs)).length := by
      omega
    refine ⟨(List.insertionSort (· ≤ ·) (x :: xs))[(x :: xs).length / 2], ?_, _,
      hperm, hsort, ?_⟩
    · simp only [pyMedian, hodd, if_pos, List.getElem?_eq_getElem hidx]
    · rw [if_pos hodd, List.getD_eq_getElem _ _ hidx]
  · have h2 : 2 ≤ (x :: xs).length := by omega
    have hidx1 : (x :: xs).length / 2 - 1 < (List.insertionSort (· ≤ ·) (x :: xs)).length := by
      omega
    have hidx2 : (x :: xs).length / 2 < (List.insertionSort (· ≤ ·) (x :: xs)).length := by
      omega
    refine ⟨((List.insertionSort (· ≤ ·) (x :: xs))[(x :: xs).length / 2 - 1] +
        (List.insertionSort (· ≤ ·) (x :: xs))[(x :: xs).length / 2]) / 2, ?_, _,
      hperm, hsort, ?_⟩
    · simp only [pyMedian, hodd, if_neg, List.getElem?_eq_getElem hidx1,
        List.getElem?_eq_getElem hidx2]
      simp
    · rw [if_neg hodd, List.getD_eq_getElem _ _ hidx1, List.getD_eq_getElem _ _ hidx2]

/-! ### Fan-out and aggregation lemmas -/

theorem processPair_nil (f : Filters) (name origin : List Char) :
    processPair [] f name origin = some none := rfl

theorem fanOutDests_error_as_empty (p : Provider) (f : Filters) (name origin : List Char)
    (dests : List (List Char)) :
    ∀ acc, fanOutDests p f name origin dests acc
      = fanOutDests (fun o d ns ex => some ((p o d ns ex).getD [])) f name origin dests acc := by
  induction dests with
  | nil => intro acc; rfl
  | cons dest rest ih =>
    intro acc
    simp only [fanOutDests]
    cases hns : f.non_stop_only with
    | none => rfl
    | some ns =>
      cases hp : p origin dest ns (f.excluded_airlines.getD []) with
      | none =>
        simp only [hp, Option.getD_none, processPair_nil]
        exact ih acc
      | some offers =>
        simp only [hp, Option.getD_some]
        cases processPair offers f name origin with
        | none => rfl
        | some r =>
          cases r with
          | none => exact ih acc
          | some tf => exact ih _

theorem fanOutTravelers_error_as_empty (p : Provider) (travelers : List Traveler)
    (dests : List (List Char)) :
    ∀ acc, fanOutTravelers p travelers dests acc
      = fanOutTravelers (fun o d ns ex => some ((p o d ns ex).getD [])) travelers dests acc := by
  induction travelers with
  | nil => intro acc; rfl
  | cons t ts ih =>
    intro acc
    simp only [fanOutTravelers]
    cases t.name with
    | none => rfl
    | some name =>
      cases t.origin_airport with
      | none => rfl
      | some origin =>
        cases t.filters with
        | none => rfl
        | some f =>
          dsimp only
          rw [← fanOutDests_error_as_empty p f name origin dests acc]
          cases fanOutDests p f name origin dests acc with
          | none => rfl
          | some acc' => exact ih acc'

theorem compute_group_stats_total {l : List ℚ} (hne : l ≠ []) (c : List Char) :
    ∃ g, compute_group_stats l c = some g := by
  have hlen : ¬ l.length = 0 := by simpa [List.length_eq_zero] using hne
  obtain ⟨med, hmed, _⟩ := pyMedian_spec hne
  obtain ⟨mn, hmn⟩ : ∃ mn, pyMin l = some mn := by
    cases l with
    | nil => exact absurd rfl hne
    | cons x xs => exact ⟨_, rfl⟩
  obtain ⟨mx, hmx⟩ : ∃ mx, pyMax l = some mx := by
    cases l with
    | nil => exact absurd rfl hne
    | cons x xs => exact ⟨_, rfl⟩
  refine ⟨GroupStats.mk c l (pySum l) (pySum l / (l.length : ℚ)) med mn mx, ?_⟩
  simp only [compute_group_stats, if_neg hlen, hmed, hmn, hmx]

theorem aggregateResults_total (n : Nat) (hn : n ≠ 0) (resolve : List Char → List Char)
    (m : List (List Char × List TravelerFlight)) :
    ∃ res, aggregateResults n resolve m = some res := by
  induction m with
  | nil => exact ⟨[], rfl⟩
  | cons e rest ih =>
    obtain ⟨dest, tfs⟩ := e
    obtain ⟨others, hothers⟩ := ih
    by_cases hl : tfs.length = n
    · have hne : tfs ≠ [] := by
        intro he
        subst he
        simp at hl
        omega
      obtain ⟨tf0, tfs', rfl⟩ := List.exists_cons_of_ne_nil hne
      have hmapne : ((tf0 :: tfs').map (fun tf => tf.total_price)) ≠ [] := by simp
      obtain ⟨g, hg⟩ := compute_group_stats_total hmapne tf0.currency
      refine ⟨⟨dest, resolve dest, tf0 :: tfs', g⟩ :: others, ?_⟩
      simp only [aggregateResults, if_neg (by simp [hl] : ¬ (tf0 :: tfs').length ≠ n)]
      simp only [List.getElem?_cons_zero, hg, hothers]
    · exact ⟨others, by simp only [aggregateResults, if_pos hl, hothers]⟩

/-! ## Claim theorems -/

/-- C2: the duration parser maps `PT10H30M` to 630, `PT45M` to 45, `PT2H`
to 120 and `PT0H0M` to 0; in general, on a token `PT<h>H<m>M` with either
component optional (nonempty digit runs `<h>`, `<m>`), it returns
`h * 60 + m`, treating an absent component as zero. -/
theorem c2_duration_parser_values (hd md : List Char) (hne1 : hd ≠ [])
    (hdig1 : hd.all Char.isDigit = true) (hne2 : md ≠ [])
    (hdig2 : md.all Char.isDigit = true) :
    parse_duration_minutes ('P' :: 'T' :: (hd ++ 'H' :: (md ++ ['M'])))
        = some (digitsVal hd * 60 + digitsVal md)
  ∧ parse_duration_minutes ('P' :: 'T' :: (hd ++ ['H'])) = some (digitsVal hd * 60)
  ∧ parse_duration_minutes ('P' :: 'T' :: (md ++ ['M'])) = some (digitsVal md)
  ∧ parse_duration_minutes ['P', 'T'] = some 0
  ∧ parse_duration_minutes "PT10H30M".toList = some 630
  ∧ parse_duration_minutes "PT45M".toList = some 45
  ∧ parse_duration_minutes "PT2H".toList = some 120
  ∧ parse_duration_minutes "PT0H0M".toList = some 0 := by
  refine ⟨?_, ?_, ?_, by decide, by decide, by decide, by decide, by decide⟩
  · have hHmem : 'H' ∈ 'P' :: 'T' :: (hd ++ 'H' :: (md ++ ['M'])) := by simp
    have hMmem : 'M' ∈ 'P' :: 'T' :: (hd ++ 'H' :: (md ++ ['M'])) := by simp
    have hh : reSearchNum 'H' ('P' :: 'T' :: (hd ++ 'H' :: (md ++ ['M'])))
        = some (digitsVal hd) := by
      rw [reSearchNum_cons_skip (by decide) (by decide),
          reSearchNum_cons_skip (by decide) (by decide),
          reSearchNum_found (by decide) hne1 hdig1]
    have hm : reSearchNum 'M' ('P' :: 'T' :: (hd ++ 'H' :: (md ++ ['M'])))
        = some (digitsVal md) := by
      rw [reSearchNum_cons_skip (by decide) (by decide),
          reSearchNum_cons_skip (by decide) (by decide),
          reSearchNum_skip (by decide) (by decide) hdig1,
          reSearchNum_found (by decide) hne2 hdig2]
    simp [parse_duration_minutes, hHmem, hMmem, hh, hm]
  · have hHmem : 'H' ∈ 'P' :: 'T' :: (hd ++ ['H']) := by simp
    have hMnot : 'M' ∉ 'P' :: 'T' :: (hd ++ ['H']) := by
      intro hmem
      simp only [List.mem_cons, List.mem_append, List.mem_singleton] at hmem
      rcases hmem with h | h | h | h
      · exact absurd h (by decide)
      · exact absurd h (by decide)
      · exact absurd h (not_mem_digits (by decide) hdig1)
      · exact absurd h (by decide)
    have hh : reSearchNum 'H' ('P' :: 'T' :: (hd ++ ['H'])) = some (digitsVal hd) := by
      rw [reSearchNum_cons_skip (by decide) (by decide),
          reSearchNum_cons_skip (by decide) (by decide),
          reSearchNum_found (by decide) hne1 hdig1]
    simp [parse_duration_minutes, hHmem, hMnot, hh]
  · have hHnot : 'H' ∉ 'P' :: 'T' :: (md ++ ['M']) := by
      intro hmem
      simp only [List.mem_cons, List.mem_append, List.mem_singleton] at hmem
      rcases hmem with h | h | h | h
      · exact absurd h (by decide)
      · exact absurd h (by decide)
      · exact absurd h (not_mem_digits (by decide) hdig2)
      · exact absurd h (by decide)
    have hMmem : 'M' ∈ 'P' :: 'T' :: (md ++ ['M']) := by simp
    have hm : reSearchNum 'M' ('P' :: 'T' :: (md ++ ['M'])) = some (digitsVal md) := by
      rw [reSearchNum_cons_skip (by decide) (by decide),
          reSearchNum_cons_skip (by decide) (by decide),
          reSearchNum_found (by decide) hne2 hdig2]
    simp [parse_duration_minutes, hHnot, hMmem, hm]

/-- Witness for C2 at `hd = "10"`, `md = "30"`. -/
theorem c2_duration_parser_values_witness :
    parse_duration_minutes ('P' :: 'T' :: (['1', '0'] ++ 'H' :: (['3', '0'] ++ ['M'])))
      = some (digitsVal ['1', '0'] * 60 + digitsVal ['3', '0']) :=
  (c2_duration_parser_values ['1', '0'] ['3', '0'] (by decide) (by decide) (by decide)
    (by decide)).1

/-- C3 counterexample: `10H30M` (the `PT` prefix is missing) is not a
well-formed duration token, yet the parser returns the guessed value 630
instead of failing. -/
theorem c3_malformed_duration_counterexample :
    wellFormedDuration "10H30M".toList = false ∧
      parse_duration_minutes "10H30M".toList = some 630 :=
  ⟨by decide, by decide⟩

/-- C3 (amended): the parser fails exactly on strings containing an `'H'`
with no digit run immediately before any `'H'`, or an `'M'` with no digit
run immediately before any `'M'`; every other string — malformed tokens
included — yields a numeric value rather than an error. -/
theorem c3_duration_failure_characterization (s : List Char) :
    parse_duration_minutes s = none ↔
      ('H' ∈ s ∧ reSearchNum 'H' s = none) ∨ ('M' ∈ s ∧ reSearchNum 'M' s = none) := by
  unfold parse_duration_minutes
  by_cases hH : 'H' ∈ s
  · by_cases hM : 'M' ∈ s
    · simp only [if_pos hH, if_pos hM]
      cases hrH : reSearchNum 'H' s <;> cases hrM : reSearchNum 'M' s <;>
        simp [hH, hM, hrH, hrM]
    · simp only [if_pos hH, if_neg hM]
      cases hrH : reSearchNum 'H' s <;> simp [hH, hM, hrH]
  · by_cases hM : 'M' ∈ s
    · simp only [if_neg hH, if_pos hM]
      cases hrM : reSearchNum 'M' s <;> simp [hH, hM, hrM]
    · simp [if_neg hH, if_neg hM, hH, hM]

/-- C1: a destination appears in the aggregator's final list iff the
number of traveler flights collected for it equals the traveler count `n`;
destinations whose every entry has a different count are dropped. -/
theorem c1_destination_included_iff_full_coverage (n : Nat)
    (resolve : List Char → List Char) (m : List (List Char × List TravelerFlight))
    (res : List DestinationResult) (h : aggregateResults n resolve m = some res)
    (d : List Char) :
    (∃ r ∈ res, r.destination = d) ↔ ∃ tfs, (d, tfs) ∈ m ∧ tfs.length = n := by
  induction m generalizing res with
  | nil =>
    simp only [aggregateResults, Option.some_inj] at h
    subst h
    simp
  | cons e rest ih =>
    obtain ⟨dest, tfs⟩ := e
    simp only [aggregateResults] at h
    by_cases hl : tfs.length = n
    · rw [if_neg (by simp [hl])] at h
      cases h0 : tfs[0]? with
      | none => rw [h0] at h; cases h
      | some tf0 =>
        rw [h0] at h
        dsimp only at h
        cases hst : compute_group_stats (tfs.map (fun tf => tf.total_price)) tf0.currency with
        | none => rw [hst] at h; cases h
        | some stats =>
          rw [hst] at h
          dsimp only at h
          cases hrest : aggregateResults n resolve rest with
          | none => rw [hrest] at h; cases h
          | some others =>
            rw [hrest] at h
            dsimp only at h
            rw [Option.some_inj] at h
            subst h
            constructor
            · rintro ⟨r, hr, rfl⟩
              rcases List.mem_cons.mp hr with rfl | hr
              · exact ⟨tfs, List.mem_cons_self _ _, hl⟩
              · obtain ⟨tfs', hmem, hlen⟩ := (ih _ hrest).mp ⟨r, hr, rfl⟩
                exact ⟨tfs', List.mem_cons_of_mem _ hmem, hlen⟩
            · rintro ⟨tfs', hmem, hlen⟩
              rcases List.mem_cons.mp hmem with he | hmem
              · obtain ⟨rfl, rfl⟩ := Prod.mk.injEq .. ▸ he
                exact ⟨_, List.mem_cons_self _ _, rfl⟩
              · obtain ⟨r, hr, hrd⟩ := (ih _ hrest).mpr ⟨tfs', hmem, hlen⟩
                exact ⟨r, List.mem_cons_of_mem _ hr, hrd⟩
    · rw [if_pos hl] at h
      rw [ih _ h]
      constructor
      · rintro ⟨tfs', hmem, hlen⟩
        exact ⟨tfs', List.mem_cons_of_mem _ hmem, hlen⟩
      · rintro ⟨tfs', hmem, hlen⟩
        rcases List.mem_cons.mp hmem with he | hmem
        · obtain ⟨rfl, rfl⟩ := Prod.mk.injEq .. ▸ he
          exact absurd hlen hl
        · exact ⟨tfs', hmem, hlen⟩

/-- Witness for C1: two destinations, one fully covered by both travelers,
one covered by only one; only the first appears. -/
theorem c1_destination_included_iff_full_coverage_witness :
    aggregateResults 2 (fun d => d) [("CDG".toList, [tfEx, tfEx]), ("LHR".toList, [tfEx])]
        = some [⟨"CDG".toList, "CDG".toList, [tfEx, tfEx],
            ⟨"USD".toList, [100, 100], 200, 100, 100, 100, 100⟩⟩] ∧
    ((∃ r ∈ [(⟨"CDG".toList, "CDG".toList, [tfEx, tfEx],
            ⟨"USD".toList, [100, 100], 200, 100, 100, 100, 100⟩⟩ : DestinationResult)],
        r.destination = "CDG".toList) ↔
      ∃ tfs, ("CDG".toList, tfs) ∈ [("CDG".toList, [tfEx, tfEx]), ("LHR".toList, [tfEx])] ∧
        tfs.length = 2) :=
  ⟨by with_unfolding_all rfl,
    c1_destination_included_iff_full_coverage 2 (fun d => d) _ _ (by with_unfolding_all rfl)
      "CDG".toList⟩

/-- C4: a provider error on one (traveler, destination) pair is non-fatal:
the fan-out treats an erroring pair exactly like a pair with no offers
(the pair contributes no flight, every other pair is processed
identically), and whenever the fan-out over the successful responses
raises no exception, the job of a submission with a non-empty traveler
list terminates complete — regardless of how many pairs erred. -/
theorem c4_provider_errors_nonfatal (p : Provider) :
    (∀ (travelers : List Traveler) (dests : List (List Char)),
      fanOut p travelers dests
        = fanOut (fun o d ns ex => some ((p o d ns ex).getD [])) travelers dests)
  ∧ ∀ (resolve : List Char → List Char) (s : Submission) (ts : List Traveler)
      (ds : List (List Char)) (m : List (List Char × List TravelerFlight)),
      s.travelers = some ts → s.destinations = some ds →
      s.outbound_date.isSome = true → s.return_date.isSome = true →
      ts ≠ [] → fanOut p ts ds = some m →
      ∃ res, run_flock_job p resolve s = some res := by
  constructor
  · intro travelers dests
    exact fanOutTravelers_error_as_empty p travelers dests []
  · intro resolve s ts ds m hts hds hod hrd hne hm
    obtain ⟨od, hod⟩ := Option.isSome_iff_exists.mp hod
    obtain ⟨rd, hrd⟩ := Option.isSome_iff_exists.mp hrd
    obtain ⟨res, hres⟩ := aggregateResults_total ts.length
      (by simpa [List.length_eq_zero] using hne) resolve m
    refine ⟨res, ?_⟩
    simp only [run_flock_job, hts, hds, hod, hrd, hm, hres]

/-- Witness for C4: a provider that errs on the CDG pair while the LHR
pair succeeds; the erring pair contributes nothing and the job completes. -/
theorem c4_provider_errors_nonfatal_witness :
    provEx "JFK".toList "CDG".toList false [] = none ∧
    fanOut provEx [travEx] ["CDG".toList, "LHR".toList] = some [("LHR".toList, [tfEx])] ∧
    ∃ res, run_flock_job provEx (fun d => d) subEx = some res :=
  ⟨rfl, by with_unfolding_all rfl,
    (c4_provider_errors_nonfatal provEx).2 (fun d => d) subEx [travEx]
      ["CDG".toList, "LHR".toList] [("LHR".toList, [tfEx])] rfl rfl rfl rfl
      (List.cons_ne_nil _ _) (by with_unfolding_all rfl)⟩

/-- C5: offer filtering is monotonic.  If `f2` tightens `f1` (smaller or
equal `max_stops`, every window of `f2` contained in the corresponding
window of `f1`, absent windows counting as the full day), then every offer
passing `f2` passes `f1`; hence over a fixed raw offer list the surviving
set never grows under tightening. -/
theorem c5_filter_monotone (f1 f2 : Filters) (ht : filtersTighten f2 f1 = true) :
    (∀ o : Offer, passes_filters o f2 = some true → passes_filters o f1 = some true)
  ∧ (∀ (offers v2 v1 : List Offer), filterValid f2 offers = some v2 →
      filterValid f1 offers = some v1 → ∀ o ∈ v2, o ∈ v1) := by
  refine ⟨fun o hp => passes_filters_tighten ht hp, ?_⟩
  intro offers v2 v1 h2 h1 o hmem
  rw [filterValid_eq_filter h2] at hmem
  rw [filterValid_eq_filter h1]
  rw [List.mem_filter] at hmem ⊢
  refine ⟨hmem.1, ?_⟩
  have hp2 : passes_filters o f2 = some true := by
    have := hmem.2
    simpa using this
  simp [passes_filters_tighten ht hp2]

/-- Witness for C5: a concrete tighter/looser filter pair and an offer
passing both. -/
theorem c5_filter_monotone_witness :
    filtersTighten f2Ex f1Ex = true ∧ passes_filters offerEx f2Ex = some true ∧
      passes_filters offerEx f1Ex = some true :=
  ⟨by decide, by decide,
    (c5_filter_monotone f1Ex f2Ex (by decide)).1 offerEx (by decide)⟩

/-- C7: for every non-empty list of individual totals, the computed
GroupStats has total = sum of the list, average = total / length,
median = the standard median over the sorted list (middle element for odd
length, mean of the two middles for even length), cheapest = minimum and
most_expensive = maximum. -/
theorem c7_group_stats_correct (l : List ℚ) (c : List Char) (hne : l ≠ []) :
    ∃ g, compute_group_stats l c = some g
      ∧ g.currency = c
      ∧ g.individual_totals = l
      ∧ g.total = l.sum
      ∧ g.average = l.sum / (l.length : ℚ)
      ∧ (∃ s, l.Perm s ∧ s.Sorted (· ≤ ·) ∧
          g.median = (if l.length % 2 = 1 then s.getD (l.length / 2) 0
                      else (s.getD (l.length / 2 - 1) 0 + s.getD (l.length / 2) 0) / 2))
      ∧ (g.cheapest ∈ l ∧ ∀ x ∈ l, g.cheapest ≤ x)
      ∧ (g.most_expensive ∈ l ∧ ∀ x ∈ l, x ≤ g.most_expensive) := by
  have hlen : ¬ l.length = 0 := by simpa [List.length_eq_zero] using hne
  obtain ⟨med, hmed, s, hperm, hsort, hmedeq⟩ := pyMedian_spec hne
  obtain ⟨mn, hmn⟩ : ∃ mn, pyMin l = some mn := by
    cases l with
    | nil => exact absurd rfl hne
    | cons x xs => exact ⟨_, rfl⟩
  obtain ⟨mx, hmx⟩ : ∃ mx, pyMax l = some mx := by
    cases l with
    | nil => exact absurd rfl hne
    | cons x xs => exact ⟨_, rfl⟩
  have hg : compute_group_stats l c = some
      { currency := c, individual_totals := l, total := pySum l,
        average := pySum l / (l.length : ℚ), median := med, cheapest := mn,
        most_expensive := mx } := by
    simp only [compute_group_stats, if_neg hlen, hmed, hmn, hmx]
  exact ⟨_, hg, rfl, rfl, pySum_eq_sum l, by rw [pySum_eq_sum], ⟨s, hperm, hsort, hmedeq⟩,
    pyMin_spec hmn, pyMax_spec hmx⟩

/-- Witness for C7 at the concrete totals `[3, 1, 2]`. -/
theorem c7_group_stats_correct_witness :
    (([3, 1, 2] : List ℚ) ≠ []) ∧
      ∃ g, compute_group_stats [3, 1, 2] "EUR".toList = some g
        ∧ g.currency = "EUR".toList
        ∧ g.individual_totals = [3, 1, 2]
        ∧ g.total = ([3, 1, 2] : List ℚ).sum
        ∧ g.average = ([3, 1, 2] : List ℚ).sum / (([3, 1, 2] : List ℚ).length : ℚ)
        ∧ (∃ s, ([3, 1, 2] : List ℚ).Perm s ∧ s.Sorted (· ≤ ·) ∧
            g.median = (if ([3, 1, 2] : List ℚ).length % 2 = 1
                        then s.getD (([3, 1, 2] : List ℚ).length / 2) 0
                        else (s.getD (([3, 1, 2] : List ℚ).length / 2 - 1) 0 +
                          s.getD (([3, 1, 2] : List ℚ).length / 2) 0) / 2))
        ∧ (g.cheapest ∈ ([3, 1, 2] : List ℚ) ∧ ∀ x ∈ ([3, 1, 2] : List ℚ), g.cheapest ≤ x)
        ∧ (g.most_expensive ∈ ([3, 1, 2] : List ℚ) ∧
            ∀ x ∈ ([3, 1, 2] : List ℚ), x ≤ g.most_expensive) :=
  ⟨List.cons_ne_nil _ _,
    c7_group_stats_correct [3, 1, 2] "EUR".toList (List.cons_ne_nil _ _)⟩

/-- C8: for every provider response, the orchestrator keeps exactly the
offers passing the filter; when at least one survives it selects the first
surviving offer of minimum total price (ties broken by response order) and
the pair's flight is built from it; when none survive, the pair
contributes no flight. -/
theorem c8_best_offer_selection (offers : List Offer) (f : Filters)
    (name origin : List Char) (valid : List Offer)
    (h : filterValid f offers = some valid) :
    valid = offers.filter (fun o => passes_filters o f == some true)
  ∧ (valid = [] → processPair offers f name origin = some none)
  ∧ (valid ≠ [] → ∃ best l1 l2,
      pyMinBy (fun o => o.price.total) valid = some best
      ∧ valid = l1 ++ best :: l2
      ∧ (∀ o ∈ l1, best.price.total < o.price.total)
      ∧ (∀ o ∈ l2, best.price.total ≤ o.price.total)
      ∧ processPair offers f name origin = Option.map some (buildTravelerFlight name origin best)) := by
  refine ⟨filterValid_eq_filter h, ?_, ?_⟩
  · intro hnil
    subst hnil
    simp [processPair, h, pyMinBy]
  · intro hne
    cases valid with
    | nil => exact absurd rfl hne
    | cons x xs =>
      have hmin : pyMinBy (fun o : Offer => o.price.total) (x :: xs)
          = some (xs.foldl (fun a b => if b.price.total < a.price.total then b else a) x) := rfl
      obtain ⟨l1, l2, hdec, hlt, hle⟩ := pyMinBy_spec hmin
      refine ⟨_, l1, l2, hmin, hdec, hlt, hle, ?_⟩
      simp only [processPair, h, hmin]
      cases hb : buildTravelerFlight name origin
          (xs.foldl (fun a b => if b.price.total < a.price.total then b else a) x) <;>
        simp [hb]

/-- Witness for C8 on two concrete offers that both pass the filters. -/
theorem c8_best_offer_selection_witness :
    filterValid f1Ex [offerEx, offerEx2] = some [offerEx, offerEx2] ∧
      ∃ best l1 l2,
        pyMinBy (fun o => o.price.total) [offerEx, offerEx2] = some best
        ∧ [offerEx, offerEx2] = l1 ++ best :: l2
        ∧ (∀ o ∈ l1, best.price.total < o.price.total)
        ∧ (∀ o ∈ l2, best.price.total ≤ o.price.total)
        ∧ processPair [offerEx, offerEx2] f1Ex "alice".toList "JFK".toList
            = Option.map some (buildTravelerFlight "alice".toList "JFK".toList best) :=
  ⟨by decide,
    (c8_best_offer_selection [offerEx, offerEx2] f1Ex "alice".toList "JFK".toList
      [offerEx, offerEx2] (by decide)).2.2 (List.cons_ne_nil _ _)⟩

/-- C6: the window check passes trivially when the window is absent, and
otherwise extracts the `HH:MM` component of the timestamp and passes iff
`earliest ≤ HH:MM ≤ latest` in string-lexicographic order, inclusive on
both bounds, so a time exactly equal to `earliest` or to `latest` passes. -/
theorem c6_time_window_inclusive (dt : List Char) (w : TimeWindow) (tp : List Char)
    (h : extractTimePart dt = some tp) :
    in_time_window dt none = some true
  ∧ (in_time_window dt (some w) = some true ↔
      (lexLe w.earliest tp = true ∧ lexLe tp w.latest = true))
  ∧ (lexLe w.earliest w.latest = true → tp = w.earliest ∨ tp = w.latest →
      in_time_window dt (some w) = some true) := by
  refine ⟨rfl, ?_, ?_⟩
  · simp [in_time_window, h]
  · rintro hel (rfl | rfl)
    · simp [in_time_window, h, lexLe_refl, hel]
    · simp [in_time_window, h, lexLe_refl, hel]

/-- Witness for C6: a departure at exactly the earliest bound passes. -/
theorem c6_time_window_inclusive_witness :
    extractTimePart "2024-11-01T10:40:00".toList = some "10:40".toList ∧
      in_time_window "2024-11-01T10:40:00".toList
        (some ⟨"10:40".toList, "12:00".toList⟩) = some true :=
  ⟨by decide,
    (c6_time_window_inclusive "2024-11-01T10:40:00".toList
      ⟨"10:40".toList, "12:00".toList⟩ "10:40".toList (by decide)).2.2
      (by decide) (Or.inl rfl)⟩

/-- C9: for every accepted submission, the job's status history is exactly
`pending, running, complete` or `pending, running, failed`, so every
observed subsequence of it is a subsequence of one of those two chains:
the job is created pending, running is never skipped before a terminal
state, and a terminal state is the last state ever taken. -/
theorem c9_status_lifecycle (p : Provider) (resolve : List Char → List Char)
    (s : Submission) :
    (statusHistory p resolve s = [JobStatus.pending, JobStatus.running, JobStatus.complete]
      ∨ statusHistory p resolve s = [JobStatus.pending, JobStatus.running, JobStatus.failed])
  ∧ ∀ obs : List JobStatus, obs.Sublist (statusHistory p resolve s) →
      (obs.Sublist [JobStatus.pending, JobStatus.running, JobStatus.complete]
        ∨ obs.Sublist [JobStatus.pending, JobStatus.running, JobStatus.failed]) := by
  unfold statusHistory workerStatusWrites
  cases run_flock_job p resolve s with
  | none => exact ⟨Or.inr rfl, fun obs h => Or.inr h⟩
  | some r => exact ⟨Or.inl rfl, fun obs h => Or.inl h⟩

/-- Witness for C9: a concrete poll observing `pending` then `complete`. -/
theorem c9_status_lifecycle_witness :
    [JobStatus.pending, JobStatus.complete].Sublist (statusHistory provEx (fun d => d) subEx)
  ∧ ([JobStatus.pending, JobStatus.complete].Sublist
        [JobStatus.pending, JobStatus.running, JobStatus.complete]
      ∨ [JobStatus.pending, JobStatus.complete].Sublist
        [JobStatus.pending, JobStatus.running, JobStatus.failed]) := by
  have hs : statusHistory provEx (fun d => d) subEx
      = [JobStatus.pending, JobStatus.running, JobStatus.complete] := by
    with_unfolding_all rfl
  have hsub : [JobStatus.pending, JobStatus.complete].Sublist
      (statusHistory provEx (fun d => d) subEx) := by
    rw [hs]
    decide
  exact ⟨hsub, (c9_status_lifecycle provEx (fun d => d) subEx).2 _ hsub⟩

/-- C10: there is a submission payload that the validator accepts although
its traveler's filters lack `max_stops`; applying the offer filter with
those filters fails on every offer (the missing-key read), and with a
provider returning any offer the whole job terminates failed even though
validation succeeded. -/
theorem c10_validator_gap_max_stops :
    validate_submission subC10 = true
  ∧ travC10.filters = some fNoMS
  ∧ fNoMS.max_stops = none
  ∧ (∀ o : Offer, passes_filters o fNoMS = none)
  ∧ run_flock_job provC10 (fun d => d) subC10 = none := by
  refine ⟨by decide, rfl, rfl, ?_, by with_unfolding_all rfl⟩
  intro o
  unfold passes_filters
  cases o.itineraries[0]? <;> cases o.itineraries[1]? <;> rfl

end Flock
